import Mathlib

/-!
Verification of the query-synthesis safety pipeline of
`smart_excel_csv_analysis_tool.py`.

Python strings are modelled as `List Char` (ASCII fragment; every string
the program manipulates in the verified components is ASCII).  Python's
`s.upper()` / `s.lower()` are character-wise case mappings, `needle in hay`
is substring containment, `s.rstrip(";")` removes every trailing
semicolon, and `s.strip()` removes leading and trailing whitespace.
External effects (the DuckDB store and the language-model service) are
modelled as explicit function parameters; a raised Python exception is
modelled as `Except.error`.
-/

namespace SmartTool

/-- Character-wise uppercasing, modelling Python `str.upper` on ASCII text. -/
def pyUpper (s : List Char) : List Char := s.map Char.toUpper

/-- Character-wise lowercasing, modelling Python `str.lower` on ASCII text. -/
def pyLower (s : List Char) : List Char := s.map Char.toLower

/-- Boolean test that `l₁` is a leading segment of `l₂`. -/
def isPrefixL : List Char → List Char → Bool
  | [], _ => true
  | _ :: _, [] => false
  | a :: as, b :: bs => a == b && isPrefixL as bs

/-- Boolean substring containment, modelling Python's `needle in hay`
for strings. -/
def containsSub (needle : List Char) : List Char → Bool
  | [] => needle.isEmpty
  | c :: rest => isPrefixL needle (c :: rest) || containsSub needle rest

theorem isPrefixL_iff {l₁ l₂ : List Char} : isPrefixL l₁ l₂ = true ↔ l₁ <+: l₂ := by
  induction l₁ generalizing l₂ with
  | nil => simp [isPrefixL]
  | cons a as ih =>
    cases l₂ with
    | nil => simp [isPrefixL]
    | cons b bs =>
      simp only [isPrefixL, Bool.and_eq_true, beq_iff_eq, List.cons_prefix_cons, ih]

theorem containsSub_iff {n h : List Char} : containsSub n h = true ↔ n <:+: h := by
  induction h with
  | nil =>
    simp only [containsSub, List.isEmpty_iff]
    constructor
    · rintro rfl; exact List.infix_rfl
    · intro hn; exact List.eq_nil_of_infix_nil hn
  | cons c rest ih =>
    simp only [containsSub, Bool.or_eq_true, isPrefixL_iff, ih, List.infix_cons_iff]

/-- The fixed forbidden-keyword list of the Safety Gate
(`is_safe_query`, smart_excel_csv_analysis_tool.py line 173). -/
def forbidden : List (List Char) :=
  ["INSERT".data, "UPDATE".data, "DELETE".data, "DROP".data, "ALTER".data, "CREATE".data]

/-- The Safety Gate (`is_safe_query`): uppercase the text and accept
exactly when no forbidden keyword occurs as a substring. -/
def is_safe_query (query : List Char) : Bool :=
  !(forbidden.any fun keyword => containsSub keyword (pyUpper query))

/-- The Limit Enforcer's fixed check string and appended clause come below. -/
def rstripSemi (q : List Char) : List Char :=
  ((q.reverse).dropWhile (fun c => c == ';')).reverse

/-- The Limit Enforcer (`enforce_limit`): if the uppercased text does not
contain "LIMIT", strip trailing semicolons and append the bound clause. -/
def enforce_limit (query : List Char) (limit : Nat := 10) : List Char :=
  if containsSub "LIMIT".data (pyUpper query) then query
  else rstripSemi query ++ (" LIMIT ".data ++ (Nat.repr limit).data ++ ";".data)

/-- A keyword `k` (given in uppercase) occurs case-insensitively in `q`:
some infix of `q` uppercases to `k`. -/
def OccursCI (k q : List Char) : Prop := ∃ s, s <:+: q ∧ pyUpper s = k

theorem infix_pyUpper_iff {k q : List Char} : k <:+: pyUpper q ↔ OccursCI k q := by
  constructor
  · rintro ⟨a, b, hab⟩
    obtain ⟨x, b', hq, hx, hb⟩ := List.map_eq_append_iff.mp hab.symm
    obtain ⟨a', s', hx2, ha, hs⟩ := List.map_eq_append_iff.mp hx
    exact ⟨s', ⟨a', b', by rw [hq, hx2, List.append_assoc]⟩, hs⟩
  · rintro ⟨s, ⟨a, b, hab⟩, hup⟩
    refine ⟨pyUpper a, pyUpper b, ?_⟩
    have hup' : List.map Char.toUpper s = k := hup
    have := congrArg (List.map Char.toUpper) hab
    simp only [List.map_append, hup'] at this
    simpa [pyUpper] using this

/-- C1: The Safety Gate rejects (returns `false`) exactly the texts in which
some forbidden keyword occurs as a case-insensitive substring, and accepts
(returns `true`) exactly the texts in which none occurs.  (The gate is a
pure predicate; it never modifies the text.) -/
theorem safety_gate_correct (q : List Char) :
    (is_safe_query q = false ↔ ∃ k ∈ forbidden, OccursCI k q) ∧
    (is_safe_query q = true ↔ ¬ ∃ k ∈ forbidden, OccursCI k q) := by
  have hbase : is_safe_query q = false ↔ ∃ k ∈ forbidden, OccursCI k q := by
    simp only [is_safe_query, Bool.not_eq_false', List.any_eq_true, containsSub_iff,
      infix_pyUpper_iff]
  refine ⟨hbase, ?_⟩
  rw [← hbase]
  cases h : is_safe_query q <;> simp [h]

/-- Witness for C1: the gate rejects a text containing `Drop` and accepts a
plain retrieval text. -/
theorem safety_gate_correct_witness :
    is_safe_query "Drop table t".data = false ∧
    is_safe_query "select name from t where x = 1".data = true := by
  constructor
  · exact (safety_gate_correct _).1.mpr
      ⟨"DROP".data, by decide,
        "Drop".data, ⟨[], " table t".data, by decide⟩, by decide⟩
  · exact (safety_gate_correct _).2.mpr (by
      rintro ⟨k, hk, s, hs, hup⟩
      have hk' : k <:+: pyUpper "select name from t where x = 1".data :=
        infix_pyUpper_iff.mpr ⟨s, hs, hup⟩
      have : containsSub k (pyUpper "select name from t where x = 1".data) = true :=
        containsSub_iff.mpr hk'
      fin_cases hk <;> simp_all <;> revert this <;> decide)

theorem rstripSemi_decomp (q : List Char) :
    ∃ n, q = rstripSemi q ++ List.replicate n ';' := by
  have hrep : q.reverse.takeWhile (fun c => c == ';') =
      List.replicate (q.reverse.takeWhile (fun c => c == ';')).length ';' := by
    apply List.eq_replicate_of_mem
    intro b hb
    have := List.mem_takeWhile_imp hb
    simpa using this
  have key : rstripSemi q ++ (q.reverse.takeWhile (fun c => c == ';')).reverse = q := by
    rw [rstripSemi, ← List.reverse_append, List.takeWhile_append_dropWhile,
      List.reverse_reverse]
  refine ⟨(q.reverse.takeWhile (fun c => c == ';')).length, ?_⟩
  conv_lhs => rw [← key]
  congr 1
  conv_lhs => rw [hrep]
  rw [List.reverse_replicate]

theorem rstripSemi_getLast? (q : List Char) : (rstripSemi q).getLast? ≠ some ';' := by
  intro hlast
  rw [rstripSemi, List.getLast?_reverse] at hlast
  have := List.head?_dropWhile_not (fun c => c == ';') q.reverse
  rw [hlast] at this
  simp at this

theorem rstripSemi_isPrefix (q : List Char) : rstripSemi q <+: q := by
  rw [← List.reverse_suffix, rstripSemi, List.reverse_reverse]
  exact List.dropWhile_suffix _

theorem limitClause_eq : " LIMIT ".data ++ (Nat.repr 10).data ++ ";".data = " LIMIT 10;".data := by
  decide

/-- C2: If the uppercased statement does not contain "LIMIT", the Limit
Enforcer splits the statement into its body `p` and its trailing run of
semicolons, and returns the body followed by exactly one bound clause
" LIMIT 10;" (the body itself contains no "LIMIT", so the clause occurs
exactly once); if the uppercased statement does contain "LIMIT", the
statement is returned unchanged. -/
theorem limit_enforcer_correct (q : List Char) :
    (¬ ("LIMIT".data <:+: pyUpper q) →
      ∃ p n, q = p ++ List.replicate n ';' ∧ p.getLast? ≠ some ';' ∧
        ¬ ("LIMIT".data <:+: pyUpper p) ∧
        enforce_limit q = p ++ " LIMIT 10;".data) ∧
    ("LIMIT".data <:+: pyUpper q → enforce_limit q = q) := by
  constructor
  · intro hno
    have hc : containsSub "LIMIT".data (pyUpper q) = false := by
      cases hcs : containsSub "LIMIT".data (pyUpper q)
      · rfl
      · exact absurd (containsSub_iff.mp hcs) hno
    obtain ⟨n, hn⟩ := rstripSemi_decomp q
    refine ⟨rstripSemi q, n, hn, rstripSemi_getLast? q, ?_, ?_⟩
    · intro hinf
      apply hno
      have hpre : rstripSemi q <+: q := rstripSemi_isPrefix q
      have hpre' : pyUpper (rstripSemi q) <+: pyUpper q := List.IsPrefix.map _ hpre
      exact hinf.trans hpre'.isInfix
    · rw [enforce_limit, if_neg (by simp [hc]), limitClause_eq]
  · intro hyes
    rw [enforce_limit, if_pos (containsSub_iff.mpr hyes)]

/-- Witness for C2: both branches exercised on concrete statements. -/
theorem limit_enforcer_correct_witness :
    ((¬ ("LIMIT".data <:+: pyUpper "select * from t;;".data)) ∧
      ∃ p n, "select * from t;;".data = p ++ List.replicate n ';' ∧
        p.getLast? ≠ some ';' ∧ ¬ ("LIMIT".data <:+: pyUpper p) ∧
        enforce_limit "select * from t;;".data = p ++ " LIMIT 10;".data) ∧
    (("LIMIT".data <:+: pyUpper "select 1 limit 5".data) ∧
      enforce_limit "select 1 limit 5".data = "select 1 limit 5".data) :=
  ⟨⟨by decide, (limit_enforcer_correct _).1 (by decide)⟩,
   ⟨by decide, (limit_enforcer_correct _).2 (by decide)⟩⟩

/-- C9: a first application of the Limit Enforcer always yields a text whose
uppercase form contains "LIMIT", so a second application changes nothing. -/
theorem limit_enforcer_idempotent (q : List Char) :
    enforce_limit (enforce_limit q) = enforce_limit q := by
  by_cases hc : containsSub "LIMIT".data (pyUpper q) = true
  · have hq : enforce_limit q = q := by rw [enforce_limit, if_pos hc]
    rw [hq]; exact hq
  · have h1 : enforce_limit q = rstripSemi q ++ " LIMIT 10;".data := by
      rw [enforce_limit, if_neg hc, limitClause_eq]
    have hin : containsSub "LIMIT".data (pyUpper (rstripSemi q ++ " LIMIT 10;".data)) = true := by
      apply containsSub_iff.mpr
      have hup : pyUpper (rstripSemi q ++ " LIMIT 10;".data) =
          pyUpper (rstripSemi q) ++ " LIMIT 10;".data := by
        rw [pyUpper, List.map_append]
        have : List.map Char.toUpper " LIMIT 10;".data = " LIMIT 10;".data := by decide
        rw [this]; rfl
      rw [hup]
      exact List.IsInfix.trans (by decide) (List.suffix_append _ _).isInfix
    rw [h1]
    rw [enforce_limit, if_pos hin]

theorem prefix_append_split {α : Type} {k x b : List α} (h : k <+: x ++ b) :
    k <+: x ∨ ∃ k₂, k = x ++ k₂ ∧ k₂ <+: b := by
  induction x generalizing k with
  | nil => exact Or.inr ⟨k, rfl, by simpa using h⟩
  | cons c x' ih =>
    cases k with
    | nil => exact Or.inl List.nil_prefix
    | cons d k' =>
      rw [List.cons_append, List.cons_prefix_cons] at h
      obtain ⟨rfl, h'⟩ := h
      rcases ih h' with h₁ | ⟨k₂, rfl, h₂⟩
      · exact Or.inl (List.cons_prefix_cons.mpr ⟨rfl, h₁⟩)
      · exact Or.inr ⟨k₂, rfl, h₂⟩

theorem infix_append_split {α : Type} {k a b : List α} (h : k <:+: a ++ b) :
    k <:+: a ∨ k <:+: b ∨
      ∃ k₁ k₂, k = k₁ ++ k₂ ∧ k₁ ≠ [] ∧ k₂ ≠ [] ∧ k₁ <:+ a ∧ k₂ <+: b := by
  induction a generalizing k with
  | nil => exact Or.inr (Or.inl (by simpa using h))
  | cons c a' ih =>
    rw [List.cons_append, List.infix_cons_iff] at h
    rcases h with h | h
    · rcases prefix_append_split (x := c :: a') h with h₁ | ⟨k₂, rfl, h₂⟩
      · exact Or.inl h₁.isInfix
      · rcases eq_or_ne k₂ [] with rfl | hne
        · exact Or.inl (by simp)
        · exact Or.inr (Or.inr ⟨c :: a', k₂, rfl, by simp, hne, List.suffix_rfl, h₂⟩)
    · rcases ih h with h₁ | h₂ | ⟨k₁, k₂, rfl, hne₁, hne₂, hsuf, hpre⟩
      · exact Or.inl (h₁.trans (List.suffix_cons c a').isInfix)
      · exact Or.inr (Or.inl h₂)
      · exact Or.inr (Or.inr ⟨k₁, k₂, rfl, hne₁, hne₂,
          hsuf.trans (List.suffix_cons c a'), hpre⟩)

/-- C10: the Limit Enforcer preserves the Safety Gate's acceptance: the
appended clause " LIMIT 10;" contains no forbidden keyword, no forbidden
keyword contains a space, and the retained body is a segment of the
original statement, so no new forbidden keyword can appear. -/
theorem limit_enforcer_preserves_safety (q : List Char)
    (h : is_safe_query q = true) : is_safe_query (enforce_limit q) = true := by
  by_cases hc : containsSub "LIMIT".data (pyUpper q) = true
  · rwa [enforce_limit, if_pos hc]
  · rw [enforce_limit, if_neg hc, limitClause_eq]
    have hanyq : (forbidden.any fun keyword => containsSub keyword (pyUpper q)) = false := by
      cases hb : forbidden.any fun keyword => containsSub keyword (pyUpper q) with
      | false => rfl
      | true => rw [is_safe_query, hb] at h; exact absurd h (by decide)
    have hq := List.any_eq_false.mp hanyq
    have hany : (forbidden.any fun keyword =>
        containsSub keyword (pyUpper (rstripSemi q ++ " LIMIT 10;".data))) = false := by
      rw [List.any_eq_false]
      intro k hk hcs
      have hinf : k <:+: pyUpper (rstripSemi q) ++ " LIMIT 10;".data := by
        have hup : pyUpper (rstripSemi q ++ " LIMIT 10;".data) =
            pyUpper (rstripSemi q) ++ " LIMIT 10;".data := by
          rw [pyUpper, List.map_append]
          have hfix : List.map Char.toUpper " LIMIT 10;".data = " LIMIT 10;".data := by
            decide
          rw [hfix]; rfl
        have hx := containsSub_iff.mp hcs
        rwa [hup] at hx
      rcases infix_append_split hinf with h₁ | h₂ | ⟨k₁, k₂, hkk, _, hne₂, _, hpre⟩
      · have hp : rstripSemi q <+: q := rstripSemi_isPrefix q
        have hkq : k <:+: pyUpper q := h₁.trans (List.IsPrefix.map _ hp).isInfix
        exact hq k hk (containsSub_iff.mpr hkq)
      · have hx := containsSub_iff.mpr h₂
        revert hx
        fin_cases hk <;> decide
      · have hsp : ' ' ∈ k := by
          cases k₂ with
          | nil => exact absurd rfl hne₂
          | cons c k₂' =>
            have hdata : " LIMIT 10;".data = ' ' :: "LIMIT 10;".data := rfl
            rw [hdata] at hpre
            obtain ⟨rfl, -⟩ := List.cons_prefix_cons.mp hpre
            rw [hkk]
            exact List.mem_append_right _ (List.mem_cons_self _ _)
        revert hsp
        fin_cases hk <;> decide
    rw [is_safe_query, hany]
    rfl

/-- Witness for C10: a safe concrete statement stays safe after limiting. -/
theorem limit_enforcer_preserves_safety_witness :
    is_safe_query "select name from t".data = true ∧
    is_safe_query (enforce_limit "select name from t".data) = true :=
  ⟨by decide, limit_enforcer_preserves_safety _ (by decide)⟩

/-- ASCII word character, modelling the regex class backslash-w. -/
def isWordChar (c : Char) : Bool := c.isAlphanum || c == '_'

/-- ASCII whitespace, modelling the regex class backslash-s and the
whitespace set of Python `str.strip`. -/
def isSpaceChar (c : Char) : Bool :=
  c == ' ' || c == '\t' || c == '\n' || c == '\r' || c == '\x0b' || c == '\x0c'

/-- Python `str.strip`: remove leading and trailing whitespace. -/
def pyStrip (s : List Char) : List Char :=
  ((s.dropWhile isSpaceChar).reverse.dropWhile isSpaceChar).reverse

/-- The backtick character (code point 96). -/
def tick : Char := Char.ofNat 96

/-- The triple-backtick fence marker of the regex pattern. -/
def fence : List Char := "```".data

theorem fence_eq : fence = [tick, tick, tick] := by decide

/-- Index of the first occurrence of the fence marker, if any: the
closing-delimiter search of the non-greedy group. -/
def findFence : List Char → Option Nat
  | [] => none
  | c :: rest =>
    if isPrefixL fence (c :: rest) then some 0
    else (findFence rest).map (· + 1)

/-- Attempted match of the regex tail at a fixed opening position: `s` is
the text just after an opening fence.  The greedy optional language tag
(a maximal word-character run) and the greedy whitespace run are skipped,
then the lazy group extends to the nearest closing fence.  Backtracking
into the tag or whitespace runs can never create a closing fence (those
positions hold word or space characters, never backticks), so this
deterministic reading coincides with the regex engine's. -/
def matchFenceBody (s : List Char) : Option (List Char) :=
  let body := (s.dropWhile isWordChar).dropWhile isSpaceChar
  match findFence body with
  | some j => some (body.take j)
  | none => none

/-- Leftmost-match regex search: try each start position left to right;
at an opening fence attempt the tail match, else (or on failure) continue
one position further right. -/
def searchFence : List Char → Option (List Char)
  | [] => none
  | c :: rest =>
    if isPrefixL fence (c :: rest) then
      match matchFenceBody ((c :: rest).drop 3) with
      | some g => some g
      | none => searchFence rest
    else searchFence rest

/-- The Markdown Fence Extractor (`strip_sql_markdown`): the trimmed
group of the first fenced block, or the trimmed input when the pattern
does not match. -/
def strip_sql_markdown (text : List Char) : List Char :=
  match searchFence text with
  | some g => pyStrip g
  | none => pyStrip text

theorem isPrefixL_fence_cons {c : Char} {l : List Char} (hc : c ≠ tick) :
    isPrefixL fence (c :: l) = false := by
  have hbe : (tick == c) = false := beq_eq_false_iff_ne.mpr (Ne.symm hc)
  rw [fence_eq]
  simp [isPrefixL, hbe]

theorem searchFence_skip {pre rest : List Char} (h : ∀ c ∈ pre, c ≠ tick) :
    searchFence (pre ++ rest) = searchFence rest := by
  induction pre with
  | nil => rfl
  | cons c pre' ih =>
    rw [List.cons_append, searchFence,
      isPrefixL_fence_cons (h c (List.mem_cons_self _ _))]
    simp only [Bool.false_eq_true, if_false]
    exact ih fun d hd => h d (List.mem_cons_of_mem _ hd)

theorem searchFence_found {rest g : List Char} (hm : matchFenceBody rest = some g) :
    searchFence (fence ++ rest) = some g := by
  have hshape : fence ++ rest = tick :: (tick :: tick :: rest) := by rw [fence_eq]; rfl
  have hpre : isPrefixL fence (tick :: (tick :: tick :: rest)) = true := by
    rw [fence_eq]; simp [isPrefixL]
  have hdrop : (tick :: (tick :: tick :: rest)).drop 3 = rest := rfl
  rw [hshape, searchFence, hpre]
  simp only [if_true, hdrop, hm]

theorem searchFence_none {text : List Char} (h : ¬ fence <:+: text) :
    searchFence text = none := by
  induction text with
  | nil => rfl
  | cons c rest ih =>
    have h1 : isPrefixL fence (c :: rest) = false := by
      cases hp : isPrefixL fence (c :: rest)
      · rfl
      · exact absurd (isPrefixL_iff.mp hp).isInfix h
    rw [searchFence, h1]
    simp only [Bool.false_eq_true, if_false]
    exact ih fun hinf => h (hinf.trans (List.suffix_cons c rest).isInfix)

theorem dropWhile_append_all {p : Char → Bool} {a b : List Char}
    (h : ∀ c ∈ a, p c = true) : (a ++ b).dropWhile p = b.dropWhile p := by
  induction a with
  | nil => rfl
  | cons c a' ih =>
    rw [List.cons_append, List.dropWhile_cons, h c (List.mem_cons_self _ _)]
    simp only [if_true]
    exact ih fun d hd => h d (List.mem_cons_of_mem _ hd)

theorem dropWhile_eq_self_of_head {p : Char → Bool} {l : List Char}
    (h : ∀ c, l.head? = some c → p c = false) : l.dropWhile p = l := by
  cases l with
  | nil => rfl
  | cons c rest => rw [List.dropWhile_cons, h c rfl]; simp

theorem findFence_prepend_clean {interior rest : List Char}
    (h : ∀ c ∈ interior, c ≠ tick) :
    findFence (interior ++ (fence ++ rest)) = some interior.length := by
  induction interior with
  | nil =>
    have hshape : ([] : List Char) ++ (fence ++ rest) = tick :: (tick :: tick :: rest) := by
      rw [fence_eq]; rfl
    have hpre : isPrefixL fence (tick :: (tick :: tick :: rest)) = true := by
      rw [fence_eq]; simp [isPrefixL]
    rw [hshape, findFence, hpre]
    simp
  | cons c int' ih =>
    rw [List.cons_append, findFence,
      isPrefixL_fence_cons (h c (List.mem_cons_self _ _))]
    simp only [Bool.false_eq_true, if_false,
      ih fun d hd => h d (List.mem_cons_of_mem _ hd), Option.map_some']
    rfl

theorem matchFenceBody_eq {tag ws interior post : List Char}
    (htag : ∀ c ∈ tag, isWordChar c = true)
    (hws : ∀ c ∈ ws, isSpaceChar c = true)
    (hbw : ∀ c, (ws ++ (interior ++ (fence ++ post))).head? = some c → isWordChar c = false)
    (hbs : ∀ c, (interior ++ (fence ++ post)).head? = some c → isSpaceChar c = false)
    (hint : ∀ c ∈ interior, c ≠ tick) :
    matchFenceBody (tag ++ (ws ++ (interior ++ (fence ++ post)))) = some interior := by
  rw [matchFenceBody]
  have h1 : (tag ++ (ws ++ (interior ++ (fence ++ post)))).dropWhile isWordChar =
      ws ++ (interior ++ (fence ++ post)) := by
    rw [dropWhile_append_all htag]
    exact dropWhile_eq_self_of_head hbw
  have h2 : (ws ++ (interior ++ (fence ++ post))).dropWhile isSpaceChar =
      interior ++ (fence ++ post) := by
    rw [dropWhile_append_all hws]
    exact dropWhile_eq_self_of_head hbs
  simp only [h1, h2, findFence_prepend_clean hint]
  rw [List.take_left]

/-- C5: the Markdown Fence Extractor is a total function on text; on input
with no fence marker it returns the trimmed input unchanged; on input
containing a fenced block (opening marker, optional word-character tag,
whitespace, backtick-free interior, closing marker) whose opening marker is
the first backtick of the text, it returns the trimmed interior of that
first block; and the concrete sql-tagged example extracts to "SELECT 1". -/
theorem markdown_extractor_correct :
    (∀ text : List Char, ¬ (fence <:+: text) → strip_sql_markdown text = pyStrip text) ∧
    (∀ pre tag ws interior post : List Char,
      (∀ c ∈ pre, c ≠ tick) →
      (∀ c ∈ tag, isWordChar c = true) →
      (∀ c ∈ ws, isSpaceChar c = true) →
      (∀ c, (ws ++ (interior ++ (fence ++ post))).head? = some c → isWordChar c = false) →
      (∀ c, (interior ++ (fence ++ post)).head? = some c → isSpaceChar c = false) →
      (∀ c ∈ interior, c ≠ tick) →
      strip_sql_markdown
        (pre ++ (fence ++ (tag ++ (ws ++ (interior ++ (fence ++ post)))))) =
        pyStrip interior) ∧
    strip_sql_markdown "```sql\nSELECT 1\n```".data = "SELECT 1".data := by
  refine ⟨?_, ?_, by decide⟩
  · intro text h
    rw [strip_sql_markdown, searchFence_none h]
  · intro pre tag ws interior post hpre htag hws hbw hbs hint
    rw [strip_sql_markdown, searchFence_skip hpre,
      searchFence_found (matchFenceBody_eq htag hws hbw hbs hint)]

/-- Witness for C5: both general branches exercised on concrete inputs. -/
theorem markdown_extractor_correct_witness :
    (¬ (fence <:+: "plain text, no fences".data) ∧
      strip_sql_markdown "plain text, no fences".data = pyStrip "plain text, no fences".data) ∧
    strip_sql_markdown
      ("Answer: ".data ++ (fence ++ ("sql".data ++ ("\n".data ++
        ("SELECT 1".data ++ (fence ++ "\nDone".data)))))) = pyStrip "SELECT 1".data :=
  ⟨⟨by decide, markdown_extractor_correct.1 _ (by decide)⟩,
    markdown_extractor_correct.2.1 "Answer: ".data "sql".data "\n".data
      "SELECT 1".data "\nDone".data (by decide) (by decide) (by decide)
      (by decide) (by decide) (by decide)⟩

/-- A result row, as produced by `to_dict` with records orientation: an
ordered record of column name and rendered value. -/
abbrev Row : Type := List (String × String)

/-- The Summarizer (`generate_summary`).  The external model call
(`client.chat.completions.create`, whose user message interpolates the
question and the 10-row preview) is modelled as the opaque function `llm`
applied to the question and the preview; the Python `.strip()` of the
response text is `pyStrip`.  On an empty result the fixed literal is
returned before any model interaction. -/
def generate_summary (llm : List Char → List Row → List Char)
    (user_query : List Char) (result_rows : List Row) : List Char :=
  if result_rows.isEmpty then "No records matched the query.".data
  else pyStrip (llm user_query (result_rows.take 10))

/-- C6: on an empty result set the Summarizer returns exactly the literal
"No records matched the query." whatever the external model would answer
(so no call to it can be observed), and on non-empty result sets the
output depends on the rows only through the first 10 of them. -/
theorem summarizer_correct (user_query : List Char) (result_rows : List Row) :
    (result_rows = [] →
      ∀ llm, generate_summary llm user_query result_rows =
        "No records matched the query.".data) ∧
    (∀ llm rows', result_rows ≠ [] → rows' ≠ [] →
      result_rows.take 10 = rows'.take 10 →
      generate_summary llm user_query result_rows =
        generate_summary llm user_query rows') := by
  constructor
  · rintro rfl llm
    rfl
  · intro llm rows' h1 h2 htake
    rw [generate_summary, generate_summary, htake]
    simp [List.isEmpty_iff, h1, h2]

/-- Witness for C6: the empty-result literal, and two 11-row result sets
differing only in the 11th row summarize identically. -/
theorem summarizer_correct_witness :
    (([] : List Row) = [] ∧
      generate_summary (fun _ _ => "model answer".data) "how many rows".data [] =
        "No records matched the query.".data) ∧
    (List.replicate 10 ([("id", "1")] : Row) ++ [[("id", "2")]] ≠ [] ∧
      List.replicate 10 ([("id", "1")] : Row) ++ [[("id", "3")]] ≠ [] ∧
      generate_summary (fun _ _ => "model answer".data) "how many rows".data
          (List.replicate 10 ([("id", "1")] : Row) ++ [[("id", "2")]]) =
        generate_summary (fun _ _ => "model answer".data) "how many rows".data
          (List.replicate 10 ([("id", "1")] : Row) ++ [[("id", "3")]])) :=
  ⟨⟨rfl, (summarizer_correct _ _).1 rfl _⟩,
   ⟨by decide, by decide,
    (summarizer_correct _ _).2 _ _ (by decide) (by decide) (by decide)⟩⟩

/-- Schema metadata as built by `extract_metadata_from_db`. -/
structure Metadata where
  columns : List String
  dtypes : List (String × String)
  sample_rows : List (List (String × String))

/-- The Schema Descriptor Builder (`extract_metadata_from_db`).  The two
store reads are modelled as inputs: `DESCRIBE` yields the parallel
column_name and column_type columns of the schema dataframe, and
`SELECT * ... LIMIT 3` yields the first three stored rows.  `dict(zip ...)`
and `to_dict` with records orientation key types and row values by the
column names; the mappings are modelled as association lists, and `zip`
truncates at the shorter list exactly as Python's does. -/
def extract_metadata_from_db (colNames colTypes : List String)
    (tableRows : List (List String)) : Metadata :=
  { columns := colNames
    dtypes := colNames.zip colTypes
    sample_rows := (tableRows.take 3).map fun r => colNames.zip r }

/-- C7: the type mapping's keys are exactly the column names (hence as
sets), every sample-row key is a column name, and at most 3 sample rows
are produced.  `DESCRIBE` produces one type per column, giving the length
hypothesis. -/
theorem metadata_invariants (colNames colTypes : List String)
    (tableRows : List (List String))
    (hlen : colNames.length ≤ colTypes.length) :
    ((extract_metadata_from_db colNames colTypes tableRows).dtypes.map Prod.fst
        = colNames) ∧
    (∀ row ∈ (extract_metadata_from_db colNames colTypes tableRows).sample_rows,
      ∀ kv ∈ row, kv.1 ∈ colNames) ∧
    (extract_metadata_from_db colNames colTypes tableRows).sample_rows.length ≤ 3 := by
  refine ⟨List.map_fst_zip _ _ hlen, ?_, ?_⟩
  · intro row hrow kv hkv
    simp only [extract_metadata_from_db, List.mem_map] at hrow
    obtain ⟨r, _, rfl⟩ := hrow
    obtain ⟨a, b⟩ := kv
    exact (List.of_mem_zip hkv).1
  · simp only [extract_metadata_from_db, List.length_map, List.length_take]
    exact min_le_left _ _

/-- Witness for C7: the spec's example dataset with columns id and status. -/
theorem metadata_invariants_witness :
    (["id", "status"] : List String).length ≤ (["INTEGER", "VARCHAR"] : List String).length ∧
    (((extract_metadata_from_db ["id", "status"] ["INTEGER", "VARCHAR"]
        [["1", "Unknown"], ["2", "Active"]]).dtypes.map Prod.fst = ["id", "status"]) ∧
      (∀ row ∈ (extract_metadata_from_db ["id", "status"] ["INTEGER", "VARCHAR"]
          [["1", "Unknown"], ["2", "Active"]]).sample_rows,
        ∀ kv ∈ row, kv.1 ∈ (["id", "status"] : List String)) ∧
      (extract_metadata_from_db ["id", "status"] ["INTEGER", "VARCHAR"]
        [["1", "Unknown"], ["2", "Active"]]).sample_rows.length ≤ 3) :=
  ⟨by decide, metadata_invariants _ _ _ (by decide)⟩

/-- Connection lifecycle events of one store operation. -/
inductive ConnEvent where
  | connOpen : ConnEvent
  | connClose : ConnEvent
deriving DecidableEq

/-- The Execution Engine (`execute_query`): `duckdb.connect` opens a
connection (`connOpen`); `con.execute(query).fetchdf()` is the store call,
modelled by the function `store`, which either returns the materialized
rows or raises; `con.close()` (`connClose`) is the next statement and so
is reached only when the store call returns normally — a raised store
error propagates immediately, skipping the close.  The second component
is the connection trace of the invocation. -/
def execute_query {E : Type} (store : List Char → Except E (List Row))
    (query : List Char) : Except E (List Row) × List ConnEvent :=
  match store query with
  | Except.error e => (Except.error e, [ConnEvent.connOpen])
  | Except.ok rows => (Except.ok rows, [ConnEvent.connOpen, ConnEvent.connClose])

/-- Counterexample to C4: when the store raises during statement execution,
the invocation's connection trace contains the open but no close — the
connection is not released on the error exit path. -/
theorem execute_query_leak_counterexample :
    (execute_query
        (fun _ => (Except.error "Binder Error: column x not found"
          : Except String (List Row)))
        "SELECT x FROM uploaded_data LIMIT 10;".data).2 = [ConnEvent.connOpen] ∧
    ConnEvent.connClose ∉
      (execute_query
        (fun _ => (Except.error "Binder Error: column x not found"
          : Except String (List Row)))
        "SELECT x FROM uploaded_data LIMIT 10;".data).2 := by
  exact ⟨rfl, by decide⟩

/-- C4 (amended): the connection opened by `execute_query` is released on
the normal return path, but on a store error the close statement is never
reached and the connection leaks. -/
theorem execute_query_conn_release {E : Type}
    (store : List Char → Except E (List Row)) (q : List Char) :
    (∀ rows, store q = Except.ok rows →
      (execute_query store q).2 = [ConnEvent.connOpen, ConnEvent.connClose]) ∧
    (∀ e, store q = Except.error e →
      (execute_query store q).2 = [ConnEvent.connOpen] ∧
      ConnEvent.connClose ∉ (execute_query store q).2) := by
  constructor
  · intro rows hok
    simp [execute_query, hok]
  · intro e herr
    simp [execute_query, herr]

/-- Witness for C4 (amended): both exit paths on concrete stores. -/
theorem execute_query_conn_release_witness :
    ((fun _ => (Except.ok [] : Except String (List Row))) "SELECT 1".data =
        Except.ok [] ∧
      (execute_query (fun _ => (Except.ok [] : Except String (List Row)))
        "SELECT 1".data).2 = [ConnEvent.connOpen, ConnEvent.connClose]) ∧
    ((fun _ => (Except.error "boom" : Except String (List Row))) "SELECT 1".data =
        Except.error "boom" ∧
      (execute_query (fun _ => (Except.error "boom" : Except String (List Row)))
        "SELECT 1".data).2 = [ConnEvent.connOpen] ∧
      ConnEvent.connClose ∉
        (execute_query (fun _ => (Except.error "boom" : Except String (List Row)))
          "SELECT 1".data).2) :=
  ⟨⟨rfl, (execute_query_conn_release _ _).1 [] rfl⟩,
   ⟨rfl, (execute_query_conn_release _ _).2 "boom" rfl⟩⟩

/-- Outcome of one iteration of the interactive loop. -/
inductive TurnResult where
  | exited : TurnResult
  | blocked : TurnResult
  | answered : List Char → List Row → List Char → TurnResult
deriving DecidableEq

/-- One iteration of the interactive `while True` loop of the `__main__`
block.  `synth` models `generate_select_sql` (an external-model call that
may raise), `store` models the DuckDB execution inside `execute_query`,
and `llm` models the summary-model call.  The loop body contains no
try/except: a raised error is returned as `Except.error`, aborting the
loop and the process.  `TurnResult.exited` is the break on the exit token,
`TurnResult.blocked` is the "Unsafe query blocked." notice followed by
`continue`, and `TurnResult.answered` carries the printed statement, the
result rows and the summary of a completed turn.  The second component is
the store-connection trace of the turn. -/
def loopTurn {E : Type} (synth : List Char → Except E (List Char))
    (store : List Char → Except E (List Row))
    (llm : List Char → List Row → List Char)
    (user_input : List Char) : Except E TurnResult × List ConnEvent :=
  if pyLower user_input = "exit".data then (Except.ok TurnResult.exited, [])
  else
    match synth user_input with
    | Except.error e => (Except.error e, [])
    | Except.ok sql =>
      if is_safe_query sql = false then (Except.ok TurnResult.blocked, [])
      else
        match execute_query store (enforce_limit sql) with
        | (Except.error e, tr) => (Except.error e, tr)
        | (Except.ok rows, tr) =>
          (Except.ok (TurnResult.answered (enforce_limit sql) rows
            (generate_summary llm user_input rows)), tr)

/-- Counterexample to C3: a store error raised while executing a validated
statement is not caught at the turn boundary — the turn evaluates to the
propagated error (which terminates the loop and the process), not to a
completed turn result. -/
theorem loop_store_error_counterexample :
    loopTurn
      (fun _ => (Except.ok "SELECT missing FROM uploaded_data".data
        : Except String (List Char)))
      (fun _ => (Except.error "Binder Error: column missing not found"
        : Except String (List Row)))
      (fun _ _ => [])
      "show the missing column".data =
    (Except.error "Binder Error: column missing not found", [ConnEvent.connOpen]) := by
  rfl

/-- C3 (amended): for every turn whose input is not the exit token, whose
synthesis succeeds and passes the Safety Gate, and whose store raises an
error during execution, the loop body propagates that error uncaught
(terminating the process); no per-turn handler exists. -/
theorem loop_store_error_propagates {E : Type}
    (synth : List Char → Except E (List Char))
    (store : List Char → Except E (List Row))
    (llm : List Char → List Row → List Char)
    (input sql : List Char) (e : E)
    (hexit : pyLower input ≠ "exit".data)
    (hsynth : synth input = Except.ok sql)
    (hsafe : is_safe_query sql = true)
    (hstore : store (enforce_limit sql) = Except.error e) :
    loopTurn synth store llm input = (Except.error e, [ConnEvent.connOpen]) := by
  rw [loopTurn, if_neg hexit, hsynth]
  simp only [hsafe, Bool.true_eq_false, if_false, execute_query, hstore]

/-- Witness for C3 (amended): a concrete turn whose store raises. -/
theorem loop_store_error_propagates_witness :
    pyLower "sum of amounts".data ≠ "exit".data ∧
    is_safe_query "SELECT SUM(amount) FROM uploaded_data".data = true ∧
    loopTurn
      (fun _ => (Except.ok "SELECT SUM(amount) FROM uploaded_data".data
        : Except String (List Char)))
      (fun _ => (Except.error "Catalog Error: Table uploaded_data does not exist"
        : Except String (List Row)))
      (fun _ _ => [])
      "sum of amounts".data =
    (Except.error "Catalog Error: Table uploaded_data does not exist",
      [ConnEvent.connOpen]) :=
  ⟨by decide, by decide,
    loop_store_error_propagates _ _ _ _ _ _ (by decide) rfl (by decide) rfl⟩

/-- C8: in a turn whose synthesized statement the Safety Gate rejects, the
loop yields the blocked notice and continues (an ok outcome, not an error
or exit), with an empty store-connection trace — for every store and
summary model, so no execution is attempted and the store is untouched. -/
theorem loop_blocked_correct {E : Type}
    (synth : List Char → Except E (List Char))
    (store : List Char → Except E (List Row))
    (llm : List Char → List Row → List Char)
    (input sql : List Char)
    (hexit : pyLower input ≠ "exit".data)
    (hsynth : synth input = Except.ok sql)
    (hrejected : is_safe_query sql = false) :
    loopTurn synth store llm input = (Except.ok TurnResult.blocked, []) := by
  rw [loopTurn, if_neg hexit, hsynth]
  simp only [hrejected, if_true]

/-- Witness for C8: a concrete turn whose synthesized statement contains a
forbidden keyword is blocked with no store interaction. -/
theorem loop_blocked_correct_witness :
    pyLower "remove everything".data ≠ "exit".data ∧
    is_safe_query "DELETE FROM uploaded_data".data = false ∧
    loopTurn
      (fun _ => (Except.ok "DELETE FROM uploaded_data".data
        : Except String (List Char)))
      (fun _ => (Except.error "store must not be reached"
        : Except String (List Row)))
      (fun _ _ => [])
      "remove everything".data =
    (Except.ok TurnResult.blocked, []) :=
  ⟨by decide, by decide,
    loop_blocked_correct _ _ _ _ _ (by decide) rfl (by decide)⟩

end SmartTool
